import Mathlib

/-!
Verification development for the news-sentiment paper-trading pipeline.

Shallow embedding of the core modules:
* `sentiment_aggregator.py` — `aggregate_article_sentiments`
* `signal_generator.py`     — `generate_trading_signal`
* `portfolio.py`            — `_replay_trades`, `_compute_snapshot`, and the
  signal-application loop of `apply_signals_and_update_portfolio`

Python floats are modelled as rationals (`ℚ`); the pandas trade-log
timestamp column (`pd.to_datetime(..., errors="coerce")`) is modelled as
`Option ℤ`, `none` standing for `NaT` (an unparseable timestamp).  The
external price source `_get_latest_price` is modelled as a parameter
`priceOf : String → ℚ` (it returns the sentinel `0.0` on any failure, so
"missing" is subsumed by "non-positive").  `pandas.sort_values` on the
timestamp column sorts ascending with `NaT` placed last
(`na_position="last"`); it is modelled by an insertion sort on that key.
Presentation-only string formatting (the `reason` text of a signal and the
CSV/file I/O plumbing) is outside the embedded state.
-/

/-! ### Configuration constants (`config.py`) -/

def INITIAL_CAPITAL : ℚ := 100000

def MAX_TRADE_FRACTION : ℚ := 1/4

def SENTIMENT_THRESHOLDS_buy : ℚ := 2/100

def SENTIMENT_THRESHOLDS_sell : ℚ := -2/100

/-! ### Data model -/

/-- One row of the trade log (`portfolio_trades.csv`): timestamp (already
coerced by `pd.to_datetime(..., errors="coerce")`, `none` = `NaT`),
symbol, side, qty, price, value. -/
structure Trade where
  timestamp : Option ℤ
  symbol : String
  side : String
  qty : ℚ
  price : ℚ
  value : ℚ
deriving Repr, DecidableEq

/-- An open position: `{"qty": ..., "avg_cost": ...}`. -/
structure Pos where
  qty : ℚ
  avg_cost : ℚ
deriving Repr, DecidableEq

/-- The `positions` dict, keyed by symbol, as an insertion-ordered
association list (Python dicts preserve insertion order). -/
abbrev Positions := List (String × Pos)

/-- `positions[sym]` / `positions.get(sym)`. -/
def dlookup (sym : String) : Positions → Option Pos
  | [] => none
  | (s, p) :: rest => if s = sym then some p else dlookup sym rest

/-- `positions[sym] = v`: overwrite in place if the key exists (Python dict
assignment keeps the key's original position), else append at the end. -/
def dinsert (sym : String) (v : Pos) : Positions → Positions
  | [] => [(sym, v)]
  | (s, p) :: rest =>
      if s = sym then (sym, v) :: rest else (s, p) :: dinsert sym v rest

/-- `positions.pop(sym)` / `del positions[sym]`: drop the first (unique)
entry with that key. -/
def derase (sym : String) : Positions → Positions
  | [] => []
  | (s, p) :: rest => if s = sym then rest else (s, p) :: derase sym rest

/-- Ledger state reconstructed by `_replay_trades`. -/
structure LedgerState where
  cash : ℚ
  positions : Positions
  realized_pnl : ℚ
deriving Repr, DecidableEq

/-! ### `_replay_trades` -/

/-- Ordering key used by `trades_df.sort_values("timestamp")`: ascending on
the parsed timestamp, with `NaT` (`none`) placed after every parseable
timestamp (`na_position="last"`, the pandas default). -/
def tsLeB : Option ℤ → Option ℤ → Bool
  | none, none => true
  | none, some _ => false
  | some _, none => true
  | some x, some y => x ≤ y

/-- Sort relation on trade rows: compare the timestamp keys. -/
def tradeLe (a b : Trade) : Prop := tsLeB a.timestamp b.timestamp = true

instance : DecidableRel tradeLe := fun a b => by
  unfold tradeLe; infer_instance

instance : IsTotal Trade tradeLe := by
  constructor
  intro a b
  unfold tradeLe
  rcases a.timestamp with _ | x <;> rcases b.timestamp with _ | y <;>
    simp [tsLeB] <;> omega

instance : IsTrans Trade tradeLe := by
  constructor
  intro a b c
  unfold tradeLe
  rcases a.timestamp with _ | x <;> rcases b.timestamp with _ | y <;>
    rcases c.timestamp with _ | z <;> simp [tsLeB] <;> omega

/-- `trades_df.sort_values("timestamp")`: sort ascending by timestamp,
`NaT` last. -/
def sortTrades (trades : List Trade) : List Trade :=
  List.insertionSort tradeLe trades

/-- Body of the replay loop of `_replay_trades` for a single trade row. -/
def replayStep (st : LedgerState) (t : Trade) : LedgerState :=
  let sym := t.symbol
  let side := t.side.toUpper
  if side = "BUY" then
    { cash := st.cash - t.qty * t.price
      positions := dinsert sym ⟨t.qty, t.price⟩ st.positions
      realized_pnl := st.realized_pnl }
  else if side = "SELL" then
    match dlookup sym st.positions with
    | none => st
    | some pos =>
        { cash := st.cash + t.qty * t.price
          positions := derase sym st.positions
          realized_pnl := st.realized_pnl + (t.price - pos.avg_cost) * t.qty }
  else st

/-- `_replay_trades`: start from the configured initial capital and an empty
position map, sort the rows by timestamp, and fold the replay loop.  (The
source's early return on an empty frame coincides with the fold over `[]`.) -/
def replayTrades (trades : List Trade) : LedgerState :=
  (sortTrades trades).foldl replayStep ⟨INITIAL_CAPITAL, [], 0⟩

/-! ### `_compute_snapshot` -/

/-- One enriched position record of the snapshot. -/
structure MarketPos where
  symbol : String
  qty : ℚ
  avg_cost : ℚ
  last_price : ℚ
  market_value : ℚ
  unrealized_pnl : ℚ
deriving Repr, DecidableEq

/-- `_compute_snapshot`'s return value. -/
structure Snapshot where
  cash : ℚ
  equity : ℚ
  realized_pnl : ℚ
  unrealized_pnl : ℚ
  positions : List MarketPos
deriving Repr, DecidableEq

/-- Body of the per-position loop of `_compute_snapshot`: accumulate
(unrealized_pnl, equity, market_positions). -/
def snapshotStep (priceOf : String → ℚ) (acc : ℚ × ℚ × List MarketPos)
    (e : String × Pos) : ℚ × ℚ × List MarketPos :=
  let fetched := priceOf e.1
  let last_price := if fetched ≤ 0 then e.2.avg_cost else fetched
  let market_value := e.2.qty * last_price
  let u_pnl := e.2.qty * (last_price - e.2.avg_cost)
  (acc.1 + u_pnl, acc.2.1 + market_value,
    acc.2.2 ++ [⟨e.1, e.2.qty, e.2.avg_cost, last_price, market_value, u_pnl⟩])

/-- `_compute_snapshot`: replay the log, then price every open position,
falling back to `avg_cost` when the price source reports a non-positive
(or missing, i.e. sentinel `0.0`) price. -/
def compute_snapshot (priceOf : String → ℚ) (trades : List Trade) : Snapshot :=
  let st := replayTrades trades
  let acc := st.positions.foldl (snapshotStep priceOf) (0, st.cash, [])
  { cash := st.cash
    equity := acc.2.1
    realized_pnl := st.realized_pnl
    unrealized_pnl := acc.1
    positions := acc.2.2 }

/-! ### Sentiment aggregation (`sentiment_aggregator.py`) -/

/-- One FinBERT article result consumed by the aggregator. -/
structure ArticleResult where
  score : ℚ
  positive : ℚ
  negative : ℚ
  neutral : ℚ
  label : String
deriving Repr, DecidableEq

/-- The branch of the counting loop an article's label falls into:
`0` = positive, `1` = negative, `2` = the `else` branch (neutral). -/
def labelTag (label : String) : ℕ :=
  if label.toLower = "positive" then 0
  else if label.toLower = "negative" then 1
  else 2

/-- Aggregated per-symbol summary returned by the aggregator (the `reason`
free-text built downstream is presentation-only and not part of it). -/
structure Summary where
  final_score : ℚ
  avg_positive : ℚ
  avg_negative : ℚ
  avg_neutral : ℚ
  article_count : ℕ
  bullish_ratio : ℚ
  bearish_ratio : ℚ
  neutral_ratio : ℚ
  sentiment_view : String
deriving Repr, DecidableEq

/-- `aggregate_article_sentiments`: `None` on an empty list, otherwise
unweighted means of the per-article fields, label-count fractions, and the
strict-inequality sentiment view against the configured thresholds.  The
accumulation loop of the source is expressed through `List.sum` /
`List.countP`. -/
def aggregate_article_sentiments (article_results : List ArticleResult) :
    Option Summary :=
  match article_results with
  | [] => none
  | a :: rest =>
      let l := a :: rest
      let n : ℚ := l.length
      let sum_score := (l.map (·.score)).sum
      let sum_pos := (l.map (·.positive)).sum
      let sum_neg := (l.map (·.negative)).sum
      let sum_neu := (l.map (·.neutral)).sum
      let pos_count : ℕ := l.countP (fun r => labelTag r.label == 0)
      let neg_count : ℕ := l.countP (fun r => labelTag r.label == 1)
      let neu_count : ℕ := l.countP (fun r => labelTag r.label == 2)
      let final_score := sum_score / n
      let sentiment_view :=
        if final_score > SENTIMENT_THRESHOLDS_buy then "bullish"
        else if final_score < SENTIMENT_THRESHOLDS_sell then "bearish"
        else "mixed/neutral"
      some
        { final_score := final_score
          avg_positive := sum_pos / n
          avg_negative := sum_neg / n
          avg_neutral := sum_neu / n
          article_count := l.length
          bullish_ratio := (pos_count : ℚ) / n
          bearish_ratio := (neg_count : ℚ) / n
          neutral_ratio := (neu_count : ℚ) / n
          sentiment_view := sentiment_view }

/-! ### Signal generation (`signal_generator.py`) -/

/-- The trading signal returned by `generate_trading_signal` (again without
the presentation-only `reason` text). -/
structure TradingSignal where
  symbol : String
  signal : String
  confidence : String
  final_score : ℚ
  sentiment_view : String
  article_count : ℕ
  bullish_ratio : ℚ
  bearish_ratio : ℚ
deriving Repr, DecidableEq

/-- `generate_trading_signal`: `None` thresholds default to the configured
constants; decision order is (no articles) → (score ≥ buy) → (score ≤ sell)
→ hold, with the ±0.15 confidence escalation. -/
def generate_trading_signal (symbol : String) (summary : Summary)
    (buy_thr sell_thr : Option ℚ) : TradingSignal :=
  let buy_thr := buy_thr.getD SENTIMENT_THRESHOLDS_buy
  let sell_thr := sell_thr.getD SENTIMENT_THRESHOLDS_sell
  let final_score := summary.final_score
  let article_count := summary.article_count
  let sc : String × String :=
    if article_count = 0 then ("HOLD", "low")
    else if final_score ≥ buy_thr then
      ("BUY", if final_score ≥ buy_thr + 15/100 then "high" else "medium")
    else if final_score ≤ sell_thr then
      ("SELL", if final_score ≤ sell_thr - 15/100 then "high" else "medium")
    else ("HOLD", "medium")
  { symbol := symbol
    signal := sc.1
    confidence := sc.2
    final_score := final_score
    sentiment_view := summary.sentiment_view
    article_count := article_count
    bullish_ratio := summary.bullish_ratio
    bearish_ratio := summary.bearish_ratio }

/-! ### Applying signals (`apply_signals_and_update_portfolio`) -/

/-- In-memory state of the signal-application loop: the replayed ledger
state plus the trades newly generated this run. -/
structure ApplyState where
  cash : ℚ
  positions : Positions
  realized_pnl : ℚ
  new_trades : List Trade
deriving Repr, DecidableEq

/-- Sum of `qty * avg_cost` over the open positions (line 149 of the
source: the cost-basis part of the approximate equity). -/
def posCostValue (ps : Positions) : ℚ :=
  (ps.map (fun p => p.2.qty * p.2.avg_cost)).sum

/-- Body of the per-signal loop of `apply_signals_and_update_portfolio`.
`now` models `now_iso`, `approx_equity` the value computed once before the
loop. -/
def applyStep (priceOf : String → ℚ) (frac approx_equity : ℚ)
    (now : Option ℤ) (st : ApplyState) (sig : TradingSignal) : ApplyState :=
  let sym := sig.symbol
  let action := sig.signal.toUpper
  if action = "BUY" ∧ dlookup sym st.positions = none then
    let price := priceOf sym
    if price ≤ 0 then st
    else
      let trade_budget := min (frac * approx_equity) st.cash
      let qty : ℤ := ⌊trade_budget / price⌋
      if qty ≤ 0 then st
      else
        { cash := st.cash - (qty : ℚ) * price
          positions := dinsert sym ⟨(qty : ℚ), price⟩ st.positions
          realized_pnl := st.realized_pnl
          new_trades := st.new_trades ++
            [⟨now, sym, "BUY", (qty : ℚ), price, (qty : ℚ) * price⟩] }
  else if action = "SELL" then
    match dlookup sym st.positions with
    | none => st
    | some pos =>
        let price := priceOf sym
        if price ≤ 0 then st
        else
          { cash := st.cash + pos.qty * price
            positions := derase sym st.positions
            realized_pnl := st.realized_pnl + (price - pos.avg_cost) * pos.qty
            new_trades := st.new_trades ++
              [⟨now, sym, "SELL", pos.qty, price, pos.qty * price⟩] }
  else st

/-- The signal loop folded over a list of signals. -/
def applyLoop (priceOf : String → ℚ) (frac approx_equity : ℚ)
    (now : Option ℤ) (st : ApplyState) (sigs : List TradingSignal) : ApplyState :=
  sigs.foldl (applyStep priceOf frac approx_equity now) st

/-- Steps 1–3 of `apply_signals_and_update_portfolio`: replay the log,
compute the approximate equity once from cost basis, then process every
signal in order.  (Steps 4–6 — persisting the new rows and recomputing a
snapshot — are file plumbing around `compute_snapshot`.) -/
def apply_signals (priceOf : String → ℚ) (now : Option ℤ)
    (trades : List Trade) (sigs : List TradingSignal) : ApplyState :=
  let st := replayTrades trades
  let approx_equity := st.cash + posCostValue st.positions
  applyLoop priceOf MAX_TRADE_FRACTION approx_equity now
    ⟨st.cash, st.positions, st.realized_pnl, []⟩ sigs

/-! ### Helper lemmas -/

lemma dlookup_mem {sym : String} {p : Pos} :
    ∀ {ps : Positions}, dlookup sym ps = some p → (sym, p) ∈ ps := by
  intro ps
  induction ps with
  | nil => intro h; simp [dlookup] at h
  | cons e rest ih =>
      obtain ⟨s, q⟩ := e
      intro h
      rw [dlookup] at h
      by_cases he : s = sym
      · rw [if_pos he] at h
        have hq : q = p := Option.some_inj.mp h
        subst he hq
        exact List.mem_cons_self _ _
      · rw [if_neg he] at h
        exact List.mem_cons_of_mem _ (ih h)

lemma mem_dinsert {sym : String} {v : Pos} {e : String × Pos} :
    ∀ {ps : Positions}, e ∈ dinsert sym v ps → e = (sym, v) ∨ e ∈ ps := by
  intro ps
  induction ps with
  | nil => intro h; simp [dinsert] at h; left; exact h
  | cons f rest ih =>
      intro h
      rw [dinsert] at h
      by_cases hf : f.1 = sym
      · rw [if_pos hf] at h
        rcases List.mem_cons.mp h with h | h
        · exact Or.inl h
        · exact Or.inr (List.mem_cons_of_mem _ h)
      · rw [if_neg hf] at h
        rcases List.mem_cons.mp h with h | h
        · exact Or.inr (h ▸ List.mem_cons_self _ _)
        · rcases ih h with h | h
          · exact Or.inl h
          · exact Or.inr (List.mem_cons_of_mem _ h)

lemma mem_derase {sym : String} {e : String × Pos} :
    ∀ {ps : Positions}, e ∈ derase sym ps → e ∈ ps := by
  intro ps
  induction ps with
  | nil => intro h; simp [derase] at h
  | cons f rest ih =>
      intro h
      rw [derase] at h
      by_cases hf : f.1 = sym
      · rw [if_pos hf] at h
        exact List.mem_cons_of_mem _ h
      · rw [if_neg hf] at h
        rcases List.mem_cons.mp h with h | h
        · exact h ▸ List.mem_cons_self _ _
        · exact List.mem_cons_of_mem _ (ih h)

/-! ### C9: symbol pass-through of the Signal Generator -/

/-- A sample summary used to instantiate concrete signal-generator calls. -/
def sampleSummary : Summary :=
  { final_score := 1/10
    avg_positive := 1/2
    avg_negative := 1/5
    avg_neutral := 3/10
    article_count := 4
    bullish_ratio := 1/2
    bearish_ratio := 1/4
    neutral_ratio := 1/4
    sentiment_view := "bullish" }

/-- C9 (counterexample): called with the lower-case symbol "tsla", the Signal
Generator returns "tsla" unchanged, which is not the upper-cased form of the
input — the claimed case-normalization does not happen in this function. -/
theorem c9_counterexample :
    (generate_trading_signal "tsla" sampleSummary none none).symbol = "tsla" ∧
      "tsla".toUpper ≠ "tsla" := by
  constructor
  · with_unfolding_all rfl
  · with_unfolding_all exact of_decide_eq_true rfl

/-- C9 (amended): the TradingSignal returned by the Signal Generator carries
the input symbol verbatim, with no case normalization. -/
theorem c9_symbol_passthrough (symbol : String) (summary : Summary)
    (buy_thr sell_thr : Option ℚ) :
    (generate_trading_signal symbol summary buy_thr sell_thr).symbol = symbol := rfl

/-! ### C2: the Signal Generator's decision rule -/

/-- C2: decision order of `generate_trading_signal` — no articles gives
HOLD/low; otherwise score ≥ buy threshold (inclusive) gives BUY with
confidence high exactly when the score clears the threshold by 0.15, else
medium; otherwise score ≤ sell threshold (inclusive) gives SELL with
confidence high exactly when the score clears it by 0.15 downwards, else
medium; otherwise HOLD/medium. -/
theorem c2_signal_decision (symbol : String) (summary : Summary) (bt sthr : ℚ) :
    (summary.article_count = 0 →
      (generate_trading_signal symbol summary (some bt) (some sthr)).signal = "HOLD" ∧
      (generate_trading_signal symbol summary (some bt) (some sthr)).confidence = "low") ∧
    (summary.article_count ≠ 0 → summary.final_score ≥ bt →
      (generate_trading_signal symbol summary (some bt) (some sthr)).signal = "BUY" ∧
      (generate_trading_signal symbol summary (some bt) (some sthr)).confidence =
        (if summary.final_score ≥ bt + 15/100 then "high" else "medium")) ∧
    (summary.article_count ≠ 0 → ¬ summary.final_score ≥ bt →
      summary.final_score ≤ sthr →
      (generate_trading_signal symbol summary (some bt) (some sthr)).signal = "SELL" ∧
      (generate_trading_signal symbol summary (some bt) (some sthr)).confidence =
        (if summary.final_score ≤ sthr - 15/100 then "high" else "medium")) ∧
    (summary.article_count ≠ 0 → ¬ summary.final_score ≥ bt →
      ¬ summary.final_score ≤ sthr →
      (generate_trading_signal symbol summary (some bt) (some sthr)).signal = "HOLD" ∧
      (generate_trading_signal symbol summary (some bt) (some sthr)).confidence = "medium") := by
  refine ⟨fun h0 => ?_, fun h0 hb => ?_, fun h0 hnb hs => ?_, fun h0 hnb hns => ?_⟩ <;>
    simp only [generate_trading_signal, Option.getD_some]
  · rw [if_pos h0]; exact ⟨rfl, rfl⟩
  · rw [if_neg h0, if_pos hb]; exact ⟨rfl, rfl⟩
  · rw [if_neg h0, if_neg hnb, if_pos hs]; exact ⟨rfl, rfl⟩
  · rw [if_neg h0, if_neg hnb, if_neg hns]; exact ⟨rfl, rfl⟩

/-- C2 witness (end-to-end scenario 4): a five-article summary with final
score 0 and the default thresholds 0.02 / −0.02 yields HOLD with medium
confidence. -/
theorem c2_signal_decision_witness :
    (generate_trading_signal "TSLA"
        ⟨0, 1/4, 1/4, 1/2, 5, 2/5, 2/5, 1/5, "mixed/neutral"⟩
        (some (2/100)) (some (-2/100))).signal = "HOLD" ∧
    (generate_trading_signal "TSLA"
        ⟨0, 1/4, 1/4, 1/2, 5, 2/5, 2/5, 1/5, "mixed/neutral"⟩
        (some (2/100)) (some (-2/100))).confidence = "medium" := by
  have h := (c2_signal_decision "TSLA"
      ⟨0, 1/4, 1/4, 1/2, 5, 2/5, 2/5, 1/5, "mixed/neutral"⟩ (2/100) (-2/100)).2.2.2
      (by norm_num) (by norm_num) (by norm_num)
  exact h

/-! ### C5: aggregator ratio and mean invariants -/

lemma labelTag_cases (label : String) :
    labelTag label = 0 ∨ labelTag label = 1 ∨ labelTag label = 2 := by
  unfold labelTag
  split_ifs <;> simp

lemma countP_labelTag_partition (l : List ArticleResult) :
    l.countP (fun r => labelTag r.label == 0) +
      l.countP (fun r => labelTag r.label == 1) +
      l.countP (fun r => labelTag r.label == 2) = l.length := by
  induction l with
  | nil => simp
  | cons a t ih =>
      simp only [List.countP_cons, List.length_cons]
      rcases labelTag_cases a.label with h | h | h <;> simp [h] <;> omega

lemma foldl_min_le (x : ℚ) (xs : List ℚ) :
    xs.foldl min x ≤ x ∧ ∀ y ∈ xs, xs.foldl min x ≤ y := by
  induction xs generalizing x with
  | nil => simp
  | cons z t ih =>
      have h := ih (min x z)
      refine ⟨le_trans h.1 (min_le_left _ _), ?_⟩
      intro y hy
      rcases List.mem_cons.mp hy with rfl | hy
      · exact le_trans h.1 (min_le_right _ _)
      · exact h.2 y hy

lemma le_foldl_max (x : ℚ) (xs : List ℚ) :
    x ≤ xs.foldl max x ∧ ∀ y ∈ xs, y ≤ xs.foldl max x := by
  induction xs generalizing x with
  | nil => simp
  | cons z t ih =>
      have h := ih (max x z)
      refine ⟨le_trans (le_max_left _ _) h.1, ?_⟩
      intro y hy
      rcases List.mem_cons.mp hy with rfl | hy
      · exact le_trans (le_max_right _ _) h.1
      · exact h.2 y hy

lemma mul_length_le_sum (ys : List ℚ) (m : ℚ) (h : ∀ y ∈ ys, m ≤ y) :
    m * ys.length ≤ ys.sum := by
  induction ys with
  | nil => simp
  | cons z t ih =>
      have hz := h z (List.mem_cons_self _ _)
      have ht := ih (fun y hy => h y (List.mem_cons_of_mem _ hy))
      simp only [List.sum_cons, List.length_cons]
      push_cast
      nlinarith

lemma sum_le_mul_length (ys : List ℚ) (m : ℚ) (h : ∀ y ∈ ys, y ≤ m) :
    ys.sum ≤ m * ys.length := by
  induction ys with
  | nil => simp
  | cons z t ih =>
      have hz := h z (List.mem_cons_self _ _)
      have ht := ih (fun y hy => h y (List.mem_cons_of_mem _ hy))
      simp only [List.sum_cons, List.length_cons]
      push_cast
      nlinarith

/-- C5: for a non-empty article list the three label ratios are non-negative
and sum exactly to 1, and the final score (the unweighted mean) lies between
the least and greatest article score. -/
theorem c5_aggregator_invariants (a : ArticleResult) (rest : List ArticleResult)
    (s : Summary) (h : aggregate_article_sentiments (a :: rest) = some s) :
    (0 ≤ s.bullish_ratio ∧ 0 ≤ s.bearish_ratio ∧ 0 ≤ s.neutral_ratio) ∧
    s.bullish_ratio + s.bearish_ratio + s.neutral_ratio = 1 ∧
    (rest.map (·.score)).foldl min a.score ≤ s.final_score ∧
    s.final_score ≤ (rest.map (·.score)).foldl max a.score := by
  rw [aggregate_article_sentiments, Option.some_inj] at h
  subst h
  have hlen : (0 : ℚ) < ((a :: rest).length : ℚ) := by
    simp only [List.length_cons]
    push_cast
    positivity
  refine ⟨⟨?_, ?_, ?_⟩, ?_, ?_, ?_⟩
  · exact div_nonneg (by positivity) (le_of_lt hlen)
  · exact div_nonneg (by positivity) (le_of_lt hlen)
  · exact div_nonneg (by positivity) (le_of_lt hlen)
  · show ((a :: rest).countP (fun r => labelTag r.label == 0) : ℚ) / _ + _ + _ = 1
    rw [div_add_div_same, div_add_div_same]
    rw [div_eq_one_iff_eq (ne_of_gt hlen)]
    push_cast [← countP_labelTag_partition (a :: rest)]
    ring
  · show (rest.map (·.score)).foldl min a.score ≤
        ((a :: rest).map (·.score)).sum / ((a :: rest).length : ℚ)
    rw [le_div_iff hlen]
    have hbound : ∀ y ∈ (a :: rest).map (·.score),
        (rest.map (·.score)).foldl min a.score ≤ y := by
      intro y hy
      simp only [List.map_cons, List.mem_cons] at hy
      rcases hy with rfl | hy
      · exact (foldl_min_le a.score (rest.map (·.score))).1
      · exact (foldl_min_le a.score (rest.map (·.score))).2 y hy
    have := mul_length_le_sum ((a :: rest).map (·.score)) _ hbound
    simpa [List.length_map] using this
  · show ((a :: rest).map (·.score)).sum / ((a :: rest).length : ℚ) ≤
        (rest.map (·.score)).foldl max a.score
    rw [div_le_iff hlen]
    have hbound : ∀ y ∈ (a :: rest).map (·.score),
        y ≤ (rest.map (·.score)).foldl max a.score := by
      intro y hy
      simp only [List.map_cons, List.mem_cons] at hy
      rcases hy with rfl | hy
      · exact (le_foldl_max a.score (rest.map (·.score))).1
      · exact (le_foldl_max a.score (rest.map (·.score))).2 y hy
    have := sum_le_mul_length ((a :: rest).map (·.score)) _ hbound
    simpa [List.length_map] using this

/-- C5 witness: a concrete three-article list (labels positive, negative,
neutral; scores 1/2, −1/4, 0): ratios are each 1/3 and sum to 1, and the
mean score 1/12 lies between −1/4 and 1/2. -/
theorem c5_aggregator_invariants_witness :
    (0 ≤ (1/3 : ℚ) ∧ 0 ≤ (1/3 : ℚ) ∧ 0 ≤ (1/3 : ℚ)) ∧
    (1/3 : ℚ) + 1/3 + 1/3 = 1 ∧
    ([(-1/4 : ℚ), 0].foldl min (1/2) ≤ (1/12 : ℚ)) ∧
    ((1/12 : ℚ) ≤ [(-1/4 : ℚ), 0].foldl max (1/2)) := by
  have h := c5_aggregator_invariants
    ⟨1/2, 3/5, 1/10, 3/10, "positive"⟩
    [⟨-1/4, 1/10, 7/20, 11/20, "negative"⟩, ⟨0, 1/5, 1/5, 3/5, "neutral"⟩]
    ⟨1/12, 3/10, 13/60, 29/60, 3, 1/3, 1/3, 1/3, "bullish"⟩
    (by with_unfolding_all rfl)
  simpa using h

/-! ### C6: snapshot price fallback and equity identity -/

lemma snapshot_fold_spec (priceOf : String → ℚ) (E : ℚ) :
    ∀ (ps : Positions) (u e : ℚ) (ms : List MarketPos),
      (∀ mp ∈ ms, priceOf mp.symbol ≤ 0 →
        mp.last_price = mp.avg_cost ∧ mp.unrealized_pnl = 0) →
      e = E + (ms.map (·.market_value)).sum →
      (∀ mp ∈ (ps.foldl (snapshotStep priceOf) (u, e, ms)).2.2,
        priceOf mp.symbol ≤ 0 →
        mp.last_price = mp.avg_cost ∧ mp.unrealized_pnl = 0) ∧
      (ps.foldl (snapshotStep priceOf) (u, e, ms)).2.1 =
        E + ((ps.foldl (snapshotStep priceOf) (u, e, ms)).2.2.map
              (·.market_value)).sum := by
  intro ps
  induction ps with
  | nil =>
      intro u e ms hms he
      exact ⟨hms, he⟩
  | cons q rest ih =>
      intro u e ms hms he
      simp only [List.foldl_cons]
      refine ih _ _ _ ?_ ?_
      · intro mp hmp hle
        rcases List.mem_append.mp ((by simpa [snapshotStep] using hmp :
            mp ∈ ms ++ [(⟨q.1, q.2.qty, q.2.avg_cost,
              if priceOf q.1 ≤ 0 then q.2.avg_cost else priceOf q.1,
              q.2.qty * (if priceOf q.1 ≤ 0 then q.2.avg_cost else priceOf q.1),
              q.2.qty * ((if priceOf q.1 ≤ 0 then q.2.avg_cost else priceOf q.1)
                - q.2.avg_cost)⟩ : MarketPos)])) with h | h
        · exact hms mp h hle
        · have hmp0 := List.mem_singleton.mp h
          subst hmp0
          simp only at hle
          constructor
          · simp [if_pos hle]
          · simp [if_pos hle]
      · simp only [snapshotStep, List.map_append, List.sum_append, he,
          List.map_cons, List.map_nil, List.sum_cons, List.sum_nil]
        ring

/-- C6: in every snapshot, any open position whose fetched price is
non-positive (or missing, the `0.0` sentinel) is priced at its `avg_cost`,
making its unrealized P&L exactly 0; and equity always equals cash plus the
sum of the positions' market values. -/
theorem c6_snapshot_fallback_and_equity (priceOf : String → ℚ)
    (trades : List Trade) :
    (∀ mp ∈ (compute_snapshot priceOf trades).positions,
      priceOf mp.symbol ≤ 0 →
      mp.last_price = mp.avg_cost ∧ mp.unrealized_pnl = 0) ∧
    (compute_snapshot priceOf trades).equity =
      (compute_snapshot priceOf trades).cash +
        ((compute_snapshot priceOf trades).positions.map (·.market_value)).sum := by
  have h := snapshot_fold_spec priceOf (replayTrades trades).cash
    (replayTrades trades).positions 0 (replayTrades trades).cash []
    (by intro mp hmp; simp at hmp)
    (by simp)
  exact ⟨h.1, h.2⟩

/-- C6 witness (end-to-end scenario 5): with one open position XYZ
(500 shares at avg cost 50) and a price source returning 0.0, the snapshot
prices the position at 50, shows unrealized P&L 0 for it, and reports
equity = cash + market value = 100000. -/
theorem c6_snapshot_fallback_witness :
    ((compute_snapshot (fun _ => 0) [⟨some 0, "XYZ", "BUY", 500, 50, 25000⟩]).positions =
      [⟨"XYZ", 500, 50, 50, 25000, 0⟩]) ∧
    (∀ mp ∈ (compute_snapshot (fun _ => 0)
        [⟨some 0, "XYZ", "BUY", 500, 50, 25000⟩]).positions,
      (fun _ => (0 : ℚ)) mp.symbol ≤ 0 →
      mp.last_price = mp.avg_cost ∧ mp.unrealized_pnl = 0) ∧
    (compute_snapshot (fun _ => 0) [⟨some 0, "XYZ", "BUY", 500, 50, 25000⟩]).equity
      = 100000 := by
  refine ⟨by with_unfolding_all rfl, ?_, ?_⟩
  · exact (c6_snapshot_fallback_and_equity (fun _ => 0)
      [⟨some 0, "XYZ", "BUY", 500, 50, 25000⟩]).1
  · have h := (c6_snapshot_fallback_and_equity (fun _ => 0)
      [⟨some 0, "XYZ", "BUY", 500, 50, 25000⟩]).2
    rw [h]
    with_unfolding_all rfl

/-! ### C7: no-op signals -/

/-- C7: a BUY for a symbol with an open position, a SELL for a symbol with
no open position, and a HOLD all leave the loop state — cash, positions,
realized P&L and the recorded trades — untouched. -/
theorem c7_noop_signals (priceOf : String → ℚ) (frac aeq : ℚ) (now : Option ℤ)
    (st : ApplyState) (sig : TradingSignal) :
    (sig.signal.toUpper = "BUY" → dlookup sig.symbol st.positions ≠ none →
      applyStep priceOf frac aeq now st sig = st) ∧
    (sig.signal.toUpper = "SELL" → dlookup sig.symbol st.positions = none →
      applyStep priceOf frac aeq now st sig = st) ∧
    (sig.signal.toUpper = "HOLD" →
      applyStep priceOf frac aeq now st sig = st) := by
  refine ⟨fun hb hopen => ?_, fun hs hnone => ?_, fun hh => ?_⟩
  · have h1 : ¬ (sig.signal.toUpper = "BUY" ∧
        dlookup sig.symbol st.positions = none) := fun hand => hopen hand.2
    have h2 : sig.signal.toUpper ≠ "SELL" := by rw [hb]; decide
    rw [applyStep, if_neg h1, if_neg h2]
  · have h1 : ¬ (sig.signal.toUpper = "BUY" ∧
        dlookup sig.symbol st.positions = none) := by
      rw [hs]
      intro hand
      exact absurd hand.1 (by decide)
    rw [applyStep, if_neg h1, if_pos hs, hnone]
  · have h1 : ¬ (sig.signal.toUpper = "BUY" ∧
        dlookup sig.symbol st.positions = none) := by
      rw [hh]
      intro hand
      exact absurd hand.1 (by decide)
    have h2 : sig.signal.toUpper ≠ "SELL" := by rw [hh]; decide
    rw [applyStep, if_neg h1, if_neg h2]

/-- C7 witness (end-to-end scenario 3): with position XYZ open, a BUY signal
for XYZ leaves the state unchanged; likewise a SELL for ABC (not open) and a
HOLD for XYZ. -/
theorem c7_noop_signals_witness :
    applyStep (fun _ => 50) MAX_TRADE_FRACTION 100000 (some 5)
        ⟨75000, [("XYZ", ⟨500, 50⟩)], 0, []⟩ ⟨"XYZ", "BUY", "medium", 0, "bullish", 1, 0, 0⟩ =
      ⟨75000, [("XYZ", ⟨500, 50⟩)], 0, []⟩ ∧
    applyStep (fun _ => 50) MAX_TRADE_FRACTION 100000 (some 5)
        ⟨75000, [("XYZ", ⟨500, 50⟩)], 0, []⟩ ⟨"ABC", "SELL", "medium", 0, "bearish", 1, 0, 0⟩ =
      ⟨75000, [("XYZ", ⟨500, 50⟩)], 0, []⟩ ∧
    applyStep (fun _ => 50) MAX_TRADE_FRACTION 100000 (some 5)
        ⟨75000, [("XYZ", ⟨500, 50⟩)], 0, []⟩ ⟨"XYZ", "HOLD", "medium", 0, "mixed/neutral", 1, 0, 0⟩ =
      ⟨75000, [("XYZ", ⟨500, 50⟩)], 0, []⟩ := by
  refine ⟨?_, ?_, ?_⟩
  · exact (c7_noop_signals (fun _ => 50) MAX_TRADE_FRACTION 100000 (some 5)
      ⟨75000, [("XYZ", ⟨500, 50⟩)], 0, []⟩ ⟨"XYZ", "BUY", "medium", 0, "bullish", 1, 0, 0⟩).1
      (by with_unfolding_all rfl) (by with_unfolding_all exact of_decide_eq_true rfl)
  · exact (c7_noop_signals (fun _ => 50) MAX_TRADE_FRACTION 100000 (some 5)
      ⟨75000, [("XYZ", ⟨500, 50⟩)], 0, []⟩ ⟨"ABC", "SELL", "medium", 0, "bearish", 1, 0, 0⟩).2.1
      (by with_unfolding_all rfl) (by with_unfolding_all rfl)
  · exact (c7_noop_signals (fun _ => 50) MAX_TRADE_FRACTION 100000 (some 5)
      ⟨75000, [("XYZ", ⟨500, 50⟩)], 0, []⟩ ⟨"XYZ", "HOLD", "medium", 0, "mixed/neutral", 1, 0, 0⟩).2.2
      (by with_unfolding_all rfl)

/-! ### C1: BUY position sizing in apply() -/

/-- C1: a BUY processed by the apply loop for a symbol with no open position
and a positive fetched price buys `⌊budget / price⌋` shares, where the budget
is `min(MAX_TRADE_FRACTION × approx_equity, cash)` and the approximate equity
is cash plus the cost basis of the open positions; a non-positive quantity
means no trade and no state change. -/
theorem c1_buy_sizing (priceOf : String → ℚ) (now : Option ℤ) (trades : List Trade)
    (sig : TradingSignal) (st : LedgerState) (price budget : ℚ) (qty : ℤ)
    (hst : replayTrades trades = st)
    (hbuy : sig.signal.toUpper = "BUY")
    (hopen : dlookup sig.symbol st.positions = none)
    (hprice : priceOf sig.symbol = price) (hpos : 0 < price)
    (hbudget : budget = min (MAX_TRADE_FRACTION *
      (st.cash + posCostValue st.positions)) st.cash)
    (hqty : qty = ⌊budget / price⌋) :
    (0 < qty → apply_signals priceOf now trades [sig] =
        ⟨st.cash - (qty : ℚ) * price,
         dinsert sig.symbol ⟨(qty : ℚ), price⟩ st.positions,
         st.realized_pnl,
         [⟨now, sig.symbol, "BUY", (qty : ℚ), price, (qty : ℚ) * price⟩]⟩) ∧
    (qty ≤ 0 → apply_signals priceOf now trades [sig] =
        ⟨st.cash, st.positions, st.realized_pnl, []⟩) := by
  have hkey : apply_signals priceOf now trades [sig] =
      applyStep priceOf MAX_TRADE_FRACTION (st.cash + posCostValue st.positions)
        now ⟨st.cash, st.positions, st.realized_pnl, []⟩ sig := by
    rw [apply_signals, hst, applyLoop, List.foldl_cons, List.foldl_nil]
  constructor <;> intro hq
  · rw [hkey, applyStep, if_pos ⟨hbuy, hopen⟩]
    simp only [hprice]
    rw [if_neg (not_le.mpr hpos), ← hbudget, ← hqty, if_neg (not_le.mpr hq)]
    simp
  · rw [hkey, applyStep, if_pos ⟨hbuy, hopen⟩]
    simp only [hprice]
    rw [if_neg (not_le.mpr hpos), ← hbudget, ← hqty, if_pos hq]

/-- C1 witness (end-to-end scenario 1): empty trade log, cash 100000, BUY at
price 50 with sizing fraction 1/4: budget 25000, 500 shares bought, cash
75000, one BUY trade of value 25000. -/
theorem c1_buy_sizing_witness :
    apply_signals (fun _ => 50) (some 5) []
        [⟨"XYZ", "BUY", "high", 1/5, "bullish", 3, 2/3, 0⟩] =
      ⟨75000, [("XYZ", ⟨500, 50⟩)], 0,
        [⟨some 5, "XYZ", "BUY", 500, 50, 25000⟩]⟩ := by
  have h := (c1_buy_sizing (fun _ => 50) (some 5) []
      ⟨"XYZ", "BUY", "high", 1/5, "bullish", 3, 2/3, 0⟩
      ⟨100000, [], 0⟩ 50 25000 500
      (by with_unfolding_all rfl)
      (by with_unfolding_all rfl)
      rfl rfl (by norm_num)
      (by with_unfolding_all rfl)
      (by with_unfolding_all rfl)).1 (by norm_num)
  exact h.trans (by with_unfolding_all rfl)

/-! ### C3: SELL semantics in replay and in apply() -/

/-- C3: a SELL row in replay with an open position credits qty × price to
cash, adds (price − avg_cost) × qty to realized P&L and removes the position;
with no open position it is ignored.  A SELL signal in the apply loop with an
open position and a positive fetched price does the same with the position's
quantity and also records one SELL trade; with no open position it changes
nothing. -/
theorem c3_sell_semantics :
    (∀ (st : LedgerState) (t : Trade) (p : Pos),
      t.side.toUpper = "SELL" → dlookup t.symbol st.positions = some p →
      replayStep st t =
        ⟨st.cash + t.qty * t.price, derase t.symbol st.positions,
         st.realized_pnl + (t.price - p.avg_cost) * t.qty⟩) ∧
    (∀ (st : LedgerState) (t : Trade),
      t.side.toUpper = "SELL" → dlookup t.symbol st.positions = none →
      replayStep st t = st) ∧
    (∀ (priceOf : String → ℚ) (frac aeq : ℚ) (now : Option ℤ)
      (st : ApplyState) (sig : TradingSignal) (p : Pos),
      sig.signal.toUpper = "SELL" → dlookup sig.symbol st.positions = some p →
      0 < priceOf sig.symbol →
      applyStep priceOf frac aeq now st sig =
        ⟨st.cash + p.qty * priceOf sig.symbol,
         derase sig.symbol st.positions,
         st.realized_pnl + (priceOf sig.symbol - p.avg_cost) * p.qty,
         st.new_trades ++ [⟨now, sig.symbol, "SELL", p.qty, priceOf sig.symbol,
           p.qty * priceOf sig.symbol⟩]⟩) ∧
    (∀ (priceOf : String → ℚ) (frac aeq : ℚ) (now : Option ℤ)
      (st : ApplyState) (sig : TradingSignal),
      sig.signal.toUpper = "SELL" → dlookup sig.symbol st.positions = none →
      applyStep priceOf frac aeq now st sig = st) := by
  refine ⟨fun st t p hs hsome => ?_, fun st t hs hnone => ?_,
    fun priceOf frac aeq now st sig p hs hsome hpos => ?_,
    fun priceOf frac aeq now st sig hs hnone => ?_⟩
  · have h1 : t.side.toUpper ≠ "BUY" := by rw [hs]; decide
    rw [replayStep, if_neg h1, if_pos hs, hsome]
  · have h1 : t.side.toUpper ≠ "BUY" := by rw [hs]; decide
    rw [replayStep, if_neg h1, if_pos hs, hnone]
  · have h1 : ¬ (sig.signal.toUpper = "BUY" ∧
        dlookup sig.symbol st.positions = none) := by
      rw [hs]
      intro hand
      exact absurd hand.1 (by decide)
    rw [applyStep, if_neg h1, if_pos hs, hsome]
    simp only [if_neg (not_le.mpr hpos)]
  · have h1 : ¬ (sig.signal.toUpper = "BUY" ∧
        dlookup sig.symbol st.positions = none) := by
      rw [hs]
      intro hand
      exact absurd hand.1 (by decide)
    rw [applyStep, if_neg h1, if_pos hs, hnone]

/-- C3 witness (end-to-end scenario 2): position XYZ open with 500 shares at
avg cost 50, SELL at fetched price 60: cash rises by 30000, realized P&L by
5000, the position is removed, one SELL trade of value 30000 is recorded. -/
theorem c3_sell_semantics_witness :
    applyStep (fun _ => 60) MAX_TRADE_FRACTION 100000 (some 5)
        ⟨75000, [("XYZ", ⟨500, 50⟩)], 0, []⟩
        ⟨"XYZ", "SELL", "high", -1/5, "bearish", 3, 0, 2/3⟩ =
      ⟨105000, [], 5000, [⟨some 5, "XYZ", "SELL", 500, 60, 30000⟩]⟩ := by
  have h := c3_sell_semantics.2.2.1 (fun _ => 60) MAX_TRADE_FRACTION 100000
      (some 5) ⟨75000, [("XYZ", ⟨500, 50⟩)], 0, []⟩
      ⟨"XYZ", "SELL", "high", -1/5, "bearish", 3, 0, 2/3⟩ ⟨500, 50⟩
      (by with_unfolding_all rfl) (by with_unfolding_all rfl) (by norm_num)
  exact h.trans (by with_unfolding_all rfl)

/-! ### C10: apply() never overspends cash -/

lemma floor_mul_le_budget {budget price : ℚ} (hpos : 0 < price) :
    (⌊budget / price⌋ : ℚ) * price ≤ budget := by
  have h := Int.floor_le (budget / price)
  calc (⌊budget / price⌋ : ℚ) * price ≤ (budget / price) * price :=
        mul_le_mul_of_nonneg_right h (le_of_lt hpos)
  _ = budget := div_mul_cancel₀ budget (ne_of_gt hpos)

lemma not_buy_of_sell {sig : TradingSignal} {ps : Positions}
    (hs : sig.signal.toUpper = "SELL") :
    ¬ (sig.signal.toUpper = "BUY" ∧ dlookup sig.symbol ps = none) := by
  rw [hs]
  intro hand
  exact absurd hand.1 (by decide)

lemma applyStep_sell_none_eq (priceOf : String → ℚ) (frac aeq : ℚ)
    (now : Option ℤ) (st : ApplyState) (sig : TradingSignal)
    (hs : sig.signal.toUpper = "SELL")
    (hnone : dlookup sig.symbol st.positions = none) :
    applyStep priceOf frac aeq now st sig = st := by
  rw [applyStep, if_neg (not_buy_of_sell hs), if_pos hs, hnone]

lemma applyStep_sell_skip_eq (priceOf : String → ℚ) (frac aeq : ℚ)
    (now : Option ℤ) (st : ApplyState) (sig : TradingSignal) (pos : Pos)
    (hs : sig.signal.toUpper = "SELL")
    (hsome : dlookup sig.symbol st.positions = some pos)
    (hp : priceOf sig.symbol ≤ 0) :
    applyStep priceOf frac aeq now st sig = st := by
  rw [applyStep, if_neg (not_buy_of_sell hs), if_pos hs, hsome]
  simp only [if_pos hp]

lemma applyStep_sell_exec_eq (priceOf : String → ℚ) (frac aeq : ℚ)
    (now : Option ℤ) (st : ApplyState) (sig : TradingSignal) (pos : Pos)
    (hs : sig.signal.toUpper = "SELL")
    (hsome : dlookup sig.symbol st.positions = some pos)
    (hp : ¬ priceOf sig.symbol ≤ 0) :
    applyStep priceOf frac aeq now st sig =
      ⟨st.cash + pos.qty * priceOf sig.symbol,
       derase sig.symbol st.positions,
       st.realized_pnl + (priceOf sig.symbol - pos.avg_cost) * pos.qty,
       st.new_trades ++ [⟨now, sig.symbol, "SELL", pos.qty, priceOf sig.symbol,
         pos.qty * priceOf sig.symbol⟩]⟩ := by
  rw [applyStep, if_neg (not_buy_of_sell hs), if_pos hs, hsome]
  simp only [if_neg hp]

lemma applyStep_cash_invariant (priceOf : String → ℚ) (frac aeq : ℚ)
    (now : Option ℤ) (st : ApplyState) (sig : TradingSignal)
    (hcash : 0 ≤ st.cash) (hqty : ∀ e ∈ st.positions, 0 ≤ e.2.qty) :
    0 ≤ (applyStep priceOf frac aeq now st sig).cash ∧
    (∀ e ∈ (applyStep priceOf frac aeq now st sig).positions, 0 ≤ e.2.qty) := by
  by_cases hb : sig.signal.toUpper = "BUY" ∧ dlookup sig.symbol st.positions = none
  · rw [applyStep, if_pos hb]
    by_cases hp : priceOf sig.symbol ≤ 0
    · rw [if_pos hp]; exact ⟨hcash, hqty⟩
    · rw [if_neg hp]
      have hpos : 0 < priceOf sig.symbol := lt_of_not_le hp
      by_cases hq : ⌊min (frac * aeq) st.cash / priceOf sig.symbol⌋ ≤ 0
      · rw [if_pos hq]; exact ⟨hcash, hqty⟩
      · rw [if_neg hq]
        have hq1 : (0 : ℤ) < ⌊min (frac * aeq) st.cash / priceOf sig.symbol⌋ :=
          lt_of_not_le hq
        constructor
        · have hle : (⌊min (frac * aeq) st.cash / priceOf sig.symbol⌋ : ℚ) *
              priceOf sig.symbol ≤ min (frac * aeq) st.cash :=
            floor_mul_le_budget hpos
          have := le_trans hle (min_le_right _ _)
          simp only
          linarith
        · intro e he
          simp only at he
          rcases mem_dinsert he with rfl | he
          · show (0 : ℚ) ≤ (⌊min (frac * aeq) st.cash / priceOf sig.symbol⌋ : ℚ)
            exact_mod_cast le_of_lt hq1
          · exact hqty e he
  · by_cases hs : sig.signal.toUpper = "SELL"
    · cases hlk : dlookup sig.symbol st.positions with
      | none =>
          rw [applyStep_sell_none_eq priceOf frac aeq now st sig hs hlk]
          exact ⟨hcash, hqty⟩
      | some pos =>
          by_cases hp : priceOf sig.symbol ≤ 0
          · rw [applyStep_sell_skip_eq priceOf frac aeq now st sig pos hs hlk hp]
            exact ⟨hcash, hqty⟩
          · rw [applyStep_sell_exec_eq priceOf frac aeq now st sig pos hs hlk hp]
            have hpos : 0 < priceOf sig.symbol := lt_of_not_le hp
            have hq0 : 0 ≤ pos.qty := hqty (sig.symbol, pos) (dlookup_mem hlk)
            refine ⟨?_, fun e he => hqty e (mem_derase he)⟩
            show 0 ≤ st.cash + pos.qty * priceOf sig.symbol
            nlinarith
    · rw [applyStep, if_neg hb, if_neg hs]; exact ⟨hcash, hqty⟩

/-- C10: the debited value of an executed BUY is `⌊budget / price⌋ × price`,
which never exceeds the budget `min(frac × approx_equity, cash)` nor the
available cash; consequently, starting from non-negative cash (and positions
with non-negative quantities), the whole signal loop keeps cash
non-negative — SELLs only add to cash. -/
theorem c10_cash_never_negative :
    (∀ (priceOf : String → ℚ) (frac aeq : ℚ) (now : Option ℤ)
      (st : ApplyState) (sig : TradingSignal) (price budget : ℚ) (qty : ℤ),
      sig.signal.toUpper = "BUY" → dlookup sig.symbol st.positions = none →
      priceOf sig.symbol = price → 0 < price →
      budget = min (frac * aeq) st.cash → qty = ⌊budget / price⌋ → 0 < qty →
      (applyStep priceOf frac aeq now st sig).cash = st.cash - (qty : ℚ) * price ∧
      (qty : ℚ) * price ≤ budget ∧ budget ≤ st.cash) ∧
    (∀ (priceOf : String → ℚ) (frac aeq : ℚ) (now : Option ℤ)
      (st : ApplyState) (sigs : List TradingSignal),
      0 ≤ st.cash → (∀ e ∈ st.positions, 0 ≤ e.2.qty) →
      0 ≤ (applyLoop priceOf frac aeq now st sigs).cash) := by
  constructor
  · intro priceOf frac aeq now st sig price budget qty hbuy hopen hprice hpos
      hbudget hqty hq
    refine ⟨?_, ?_, hbudget ▸ min_le_right _ _⟩
    · rw [applyStep, if_pos ⟨hbuy, hopen⟩]
      simp only [hprice]
      rw [if_neg (not_le.mpr hpos), ← hbudget, ← hqty, if_neg (not_le.mpr hq)]
    · exact hqty ▸ hbudget ▸ floor_mul_le_budget hpos
  · intro priceOf frac aeq now st sigs
    induction sigs generalizing st with
    | nil => intro hcash _; exact hcash
    | cons sig rest ih =>
        intro hcash hqty
        have h := applyStep_cash_invariant priceOf frac aeq now st sig hcash hqty
        exact ih _ h.1 h.2

/-- C10 witness: at the scenario-1 BUY step the debited value 25000 equals
the budget and is within the available cash 100000, and the loop keeps cash
non-negative. -/
theorem c10_cash_never_negative_witness :
    ((applyStep (fun _ => 50) (1/4) 100000 (some 5) ⟨100000, [], 0, []⟩
        ⟨"XYZ", "BUY", "high", 1/5, "bullish", 3, 2/3, 0⟩).cash =
      100000 - (500 : ℚ) * 50 ∧
      (500 : ℚ) * 50 ≤ 25000 ∧ (25000 : ℚ) ≤ 100000) ∧
    0 ≤ (applyLoop (fun _ => 50) (1/4) 100000 (some 5) ⟨100000, [], 0, []⟩
        [⟨"XYZ", "BUY", "high", 1/5, "bullish", 3, 2/3, 0⟩]).cash := by
  constructor
  · have h := c10_cash_never_negative.1 (fun _ => 50) (1/4) 100000 (some 5)
      ⟨100000, [], 0, []⟩ ⟨"XYZ", "BUY", "high", 1/5, "bullish", 3, 2/3, 0⟩
      50 25000 500 (by with_unfolding_all rfl) rfl rfl (by norm_num)
      (by with_unfolding_all rfl) (by with_unfolding_all rfl) (by norm_num)
    exact h
  · exact c10_cash_never_negative.2 (fun _ => 50) (1/4) 100000 (some 5)
      ⟨100000, [], 0, []⟩ [⟨"XYZ", "BUY", "high", 1/5, "bullish", 3, 2/3, 0⟩]
      (by norm_num) (by intro e he; simp at he)

/-! ### C4: replay order (in)dependence -/

lemma tsLeB_antisymm {x y : Option ℤ} (hxy : tsLeB x y = true)
    (hyx : tsLeB y x = true) : x = y := by
  rcases x with _ | a <;> rcases y with _ | b <;> simp_all [tsLeB]
  omega

lemma sorted_perm_nodup_eq :
    ∀ (l₁ l₂ : List Trade), l₁.Perm l₂ →
      List.Sorted tradeLe l₁ → List.Sorted tradeLe l₂ →
      (l₁.map Trade.timestamp).Nodup → l₁ = l₂ := by
  intro l₁
  induction l₁ with
  | nil =>
      intro l₂ hp _ _ _
      exact (hp.symm.eq_nil).symm
  | cons a t₁ ih =>
      intro l₂ hp hs₁ hs₂ hnd
      cases l₂ with
      | nil => exact absurd hp.eq_nil (by simp)
      | cons b t₂ =>
          have hab : a = b := by
            by_contra hne
            have ha2 : a ∈ b :: t₂ := hp.subset (List.mem_cons_self _ _)
            have hb1 : b ∈ a :: t₁ := hp.symm.subset (List.mem_cons_self _ _)
            have ha2' : a ∈ t₂ := by
              rcases List.mem_cons.mp ha2 with h | h
              · exact absurd h hne
              · exact h
            have hb1' : b ∈ t₁ := by
              rcases List.mem_cons.mp hb1 with h | h
              · exact absurd h.symm hne
              · exact h
            have hle1 : tradeLe a b := (List.sorted_cons.mp hs₁).1 b hb1'
            have hle2 : tradeLe b a := (List.sorted_cons.mp hs₂).1 a ha2'
            have hts : a.timestamp = b.timestamp := tsLeB_antisymm hle1 hle2
            have hnotin : a.timestamp ∉ t₁.map Trade.timestamp :=
              (List.nodup_cons.mp hnd).1
            exact hnotin (hts ▸ List.mem_map_of_mem Trade.timestamp hb1')
          subst hab
          have htp : t₁.Perm t₂ := hp.cons_inv
          have := ih t₂ htp (List.sorted_cons.mp hs₁).2 (List.sorted_cons.mp hs₂).2
            (List.nodup_cons.mp hnd).2
          rw [this]

/-- C4 (counterexample): two trades with the same timestamp — a BUY and a
SELL of the same symbol — replay to different final states depending on the
input order of the trade list, so replay is not order-independent under
timestamp ties. -/
theorem c4_counterexample :
    (replayTrades [⟨some 0, "A", "BUY", 1, 10, 10⟩,
        ⟨some 0, "A", "SELL", 1, 20, 20⟩]).cash ≠
      (replayTrades [⟨some 0, "A", "SELL", 1, 20, 20⟩,
        ⟨some 0, "A", "BUY", 1, 10, 10⟩]).cash := by
  with_unfolding_all exact of_decide_eq_true rfl

/-- C4 (amended): replay sorts by timestamp ascending, and when all
timestamps are pairwise distinct, replaying the same trade list presented in
any input order yields identical final cash, positions and realized P&L;
with tied timestamps the outcome may depend on the input order. -/
theorem c4_replay_determinism (l₁ l₂ : List Trade) (hperm : l₁.Perm l₂)
    (hnodup : (l₁.map Trade.timestamp).Nodup) :
    replayTrades l₁ = replayTrades l₂ := by
  have hnd₂ : (l₂.map Trade.timestamp).Nodup :=
    ((hperm.map Trade.timestamp).nodup_iff).mp hnodup
  have hkey : sortTrades l₁ = sortTrades l₂ := by
    apply sorted_perm_nodup_eq
    · exact (List.perm_insertionSort tradeLe l₁).trans
        (hperm.trans (List.perm_insertionSort tradeLe l₂).symm)
    · exact List.sorted_insertionSort tradeLe l₁
    · exact List.sorted_insertionSort tradeLe l₂
    · exact ((List.perm_insertionSort tradeLe l₁).map Trade.timestamp).nodup_iff.mpr
        hnodup
  rw [replayTrades, replayTrades, hkey]

/-- C4 witness: the same two distinct-timestamp trades presented in both
orders replay to the same ledger state. -/
theorem c4_replay_determinism_witness :
    replayTrades [⟨some 1, "A", "BUY", 1, 10, 10⟩,
        ⟨some 2, "A", "SELL", 1, 20, 20⟩] =
      replayTrades [⟨some 2, "A", "SELL", 1, 20, 20⟩,
        ⟨some 1, "A", "BUY", 1, 10, 10⟩] :=
  c4_replay_determinism
    [⟨some 1, "A", "BUY", 1, 10, 10⟩, ⟨some 2, "A", "SELL", 1, 20, 20⟩]
    [⟨some 2, "A", "SELL", 1, 20, 20⟩, ⟨some 1, "A", "BUY", 1, 10, 10⟩]
    (by with_unfolding_all exact of_decide_eq_true rfl)
    (by with_unfolding_all exact of_decide_eq_true rfl)

/-! ### C8: unparseable timestamps -/

/-- C8: replay is a total function of the trade list — rows whose timestamp
failed to parse (`none`, pandas `NaT`) are not dropped (the sorted list is a
permutation of the input) and occupy a deterministic, documented place in
the replay order: after every parseable row (`na_position="last"`); the
underlying key order is total. -/
theorem c8_unparseable_timestamps (l : List Trade) :
    (sortTrades l).Pairwise
      (fun a b => a.timestamp = none → b.timestamp = none) ∧
    (sortTrades l).Perm l ∧
    (∀ a b : Trade, tradeLe a b ∨ tradeLe b a) := by
  refine ⟨?_, List.perm_insertionSort tradeLe l, fun a b => total_of tradeLe a b⟩
  have hs : List.Pairwise tradeLe (sortTrades l) :=
    List.sorted_insertionSort tradeLe l
  refine hs.imp ?_
  intro a b hle hna
  rw [tradeLe, hna] at hle
  cases hb : b.timestamp with
  | none => rfl
  | some y => rw [hb] at hle; simp [tsLeB] at hle

/-- C8 witness: a log with one unparseable-timestamp row and one dated row —
the sorted order puts the `NaT` row last and keeps both rows. -/
theorem c8_unparseable_timestamps_witness :
    ((sortTrades [⟨none, "A", "BUY", 1, 10, 10⟩, ⟨some 3, "B", "BUY", 2, 5, 10⟩]).Pairwise
      (fun a b => a.timestamp = none → b.timestamp = none)) ∧
    ((sortTrades [⟨none, "A", "BUY", 1, 10, 10⟩, ⟨some 3, "B", "BUY", 2, 5, 10⟩]).Perm
      [⟨none, "A", "BUY", 1, 10, 10⟩, ⟨some 3, "B", "BUY", 2, 5, 10⟩]) ∧
    (∀ a b : Trade, tradeLe a b ∨ tradeLe b a) :=
  c8_unparseable_timestamps
    [⟨none, "A", "BUY", 1, 10, 10⟩, ⟨some 3, "B", "BUY", 2, 5, 10⟩]
